import Mathlib

/-!
Verification development for the AURA Repair Validation Engine
(backend/app of ManethNin/AURA).

The Python sources are shallowly embedded over Lean strings.  Python
strings are sequences of characters, so every string primitive used by
the code (split, lower, strip, startswith, substring search, slicing)
is re-implemented here as an executable function on `String.data`
(a List Char); this keeps every definition computable and lets concrete
inputs evaluate inside the kernel.  Python dicts are embedded as
insertion-ordered association lists with overwrite-on-reinsert, which
matches CPython dict semantics; Python sets are embedded as
insertion-ordered duplicate-free lists (the code never depends on set
iteration order, only on membership).
-/

namespace Aura

/-! ## Generic string primitives (Python str operations) -/

/-- Python substring test on character lists: scans every start position. -/
def containsSub : List Char → List Char → Bool
  | text, pat =>
    if pat.isPrefixOf text then true
    else match text with
      | [] => false
      | _ :: t => containsSub t pat

/-- Python `pat in s` for strings. -/
def strContains (s pat : String) : Bool :=
  containsSub s.data pat.data

/-- Split a character list at every occurrence of a separator character;
Python `s.split(sep)` for a one-character separator. -/
def splitChar (sep : Char) : List Char → List (List Char)
  | [] => [[]]
  | c :: rest =>
    match splitChar sep rest with
    | [] => [[c]]
    | hd :: tl => if c = sep then [] :: hd :: tl else (c :: hd) :: tl

/-- Inverse of `splitChar`; Python `sep.join(parts)`. -/
def joinChar (sep : Char) : List (List Char) → List Char
  | [] => []
  | [x] => x
  | x :: xs => x ++ sep :: joinChar sep xs

/-- Python `s.split('\n')` lifted to strings. -/
def pysplit (s : String) (sep : Char) : List String :=
  (splitChar sep s.data).map String.mk

/-- Python `'\n'.join(lines)` lifted to strings. -/
def pyjoin (sep : Char) (lines : List String) : String :=
  ⟨joinChar sep (lines.map String.data)⟩

/-- Python `s.lower()` (the code only lowercases ASCII file names). -/
def pylower (s : String) : String :=
  ⟨s.data.map Char.toLower⟩

/-- Python `s.startswith(pre)`. -/
def pyStartsWith (s pre : String) : Bool :=
  pre.data.isPrefixOf s.data

/-- Python `s[n:]`. -/
def pyDrop (s : String) (n : Nat) : String :=
  ⟨s.data.drop n⟩

/-- Python `s.strip()` (whitespace on both ends). -/
def pyStrip (s : String) : String :=
  ⟨((s.data.dropWhile Char.isWhitespace).reverse.dropWhile Char.isWhitespace).reverse⟩

/-- Characters of `text` strictly before the first occurrence of `pat`;
`none` when `pat` does not occur. -/
def beforeFirst (pat : List Char) : List Char → Option (List Char)
  | [] => if pat.isPrefixOf [] then some [] else none
  | c :: t =>
    if pat.isPrefixOf (c :: t) then some []
    else (beforeFirst pat t).map (c :: ·)

/-- Leftmost match of the Python regex `<tag>([^<]+)</tag>`: at the first
position where `openT` occurs, the capture is the maximal run of
non-'<' characters; the match succeeds when that run is non-empty and is
followed immediately by `closeT`, otherwise the scan resumes at the next
position, exactly as `re.search` does. -/
def greedyTagSearch (openT closeT : List Char) : List Char → Option (List Char)
  | [] => none
  | c :: rest =>
    if openT.isPrefixOf (c :: rest) then
      let after := (c :: rest).drop openT.length
      let cap := after.takeWhile (· ≠ '<')
      if cap ≠ [] && closeT.isPrefixOf (after.drop cap.length) then some cap
      else greedyTagSearch openT closeT rest
    else greedyTagSearch openT closeT rest

/-- Leftmost match of the Python regex `<tag>(.*?)</tag>` (lazy capture):
at the first occurrence of `openT` that is followed somewhere by
`closeT`, capture everything up to the nearest `closeT`.  The embedded
code only applies this to single lines, which contain no newline, so the
regex dot restriction is not observable. -/
def lazyTagSearch (openT closeT : List Char) : List Char → Option (List Char)
  | [] => none
  | c :: rest =>
    if openT.isPrefixOf (c :: rest) then
      match beforeFirst closeT ((c :: rest).drop openT.length) with
      | some cap => some cap
      | none => lazyTagSearch openT closeT rest
    else lazyTagSearch openT closeT rest

/-- String-level wrapper for `greedyTagSearch`. -/
def tagSearchS (openT closeT line : String) : Option String :=
  (greedyTagSearch openT.data closeT.data line.data).map String.mk

/-- String-level wrapper for `lazyTagSearch`. -/
def lazyTagSearchS (openT closeT line : String) : Option String :=
  (lazyTagSearch openT.data closeT.data line.data).map String.mk

/-! ## Manifest Policy Guard — `validate_pom_xml_changes`
(backend/app/agents/tools.py lines 92-220) -/

/-- One entry of the `removed_dependencies` / `added_dependencies` dicts:
exactly what the Python code stores, `"group:artifact" ↦ version`
(tools.py lines 163-164, 187-188); the group and artifact are recovered
later by re-splitting the key. -/
structure DepEntry where
  key : String
  version : String
deriving DecidableEq

/-- Python dict assignment `deps[key] = version`: overwrite in place if the
key is present, append otherwise. -/
def depInsert (ds : List DepEntry) (g a v : String) : List DepEntry :=
  let k := g ++ ":" ++ a
  if ds.any (fun e => e.key == k) then
    ds.map (fun e => if e.key == k then { e with version := v } else e)
  else ds ++ [⟨k, v⟩]

/-- The two-way unpacking `group_id, artifact_id = dep_key.split(':')` of
tools.py line 193: succeeds exactly when the split yields two parts,
anything else raises ValueError in Python (`none` here). -/
def pySplitColon (k : String) : Option (String × String) :=
  match pysplit k ':' with
  | [g, a] => some (g, a)
  | _ => none

/-- Backward scan of a window of diff lines for the enclosing groupId and
artifactId; a later successful match overwrites an earlier one, a failed
match keeps the previous value (tools.py lines 149-160). -/
def scanWindow (window : List String) : Option String × Option String :=
  window.foldl
    (fun (p : Option String × Option String) line =>
      (match tagSearchS "<groupId>" "</groupId>" line with
        | some v => some v
        | none => p.1,
       match tagSearchS "<artifactId>" "</artifactId>" line with
        | some v => some v
        | none => p.2))
    (none, none)

/-- Builds the dependency dict from one side of the diff: every line whose
`<version>` tag matches is paired with the groupId/artifactId found in
the five preceding lines of the same side (tools.py lines 142-188). -/
def extractDepsAux : List String → List String → List DepEntry → List DepEntry
  | _, [], acc => acc
  | past, line :: rest, acc =>
    let acc' :=
      match tagSearchS "<version>" "</version>" line with
      | none => acc
      | some v =>
        match scanWindow (past.drop (past.length - 5)) with
        | (some g, some a) => depInsert acc g a v
        | _ => acc
    extractDepsAux (past ++ [line]) rest acc'

/-- Dependency entries extracted from a list of removed or added lines. -/
def extractDeps (lines : List String) : List DepEntry :=
  extractDepsAux [] lines []

/-- The removed/added line scanner of the guard (tools.py lines 115-132):
a `---`/`+++` header naming pom.xml opens the pom section, any other
`---`/`+++` header closes it; inside the section `-` lines are collected
as removed and `+` lines as added, each with its marker stripped. -/
def collectPomLines (lines : List String) : List String × List String :=
  (lines.foldl
    (fun (st : Bool × List String × List String) line =>
      if strContains (pylower line) "pom.xml" &&
          (strContains line "---" || strContains line "+++") then
        (true, st.2.1, st.2.2)
      else if st.1 then
        if pyStartsWith line "---" || pyStartsWith line "+++" then
          (false, st.2.1, st.2.2)
        else if pyStartsWith line "-" then
          (st.1, st.2.1 ++ [pyDrop line 1], st.2.2)
        else if pyStartsWith line "+" then
          (st.1, st.2.1, st.2.2 ++ [pyDrop line 1])
        else st
      else st)
    (false, [], [])).2

/-- The version-change loop of tools.py lines 191-201, walked in dict
insertion order.  For each removed entry the key is first re-split on
':' — a key that does not unpack into exactly two parts makes Python
raise ValueError out of the guard (`.error`; the embedded message is a
marker, Python's exact wording is not modelled).  Otherwise, if both
re-split names occur as substrings of the on-disk pom (heuristic
"already existed") and the key reappears in the added dict with a
different version, the loop returns the coordinate and both versions;
else it continues. -/
def versionViolation (original : String) :
    List DepEntry → List DepEntry → Except String (Option (String × String × String))
  | [], _ => .ok none
  | e :: rest, added =>
    match pySplitColon e.key with
    | none => .error ("ValueError: unpacking " ++ e.key)
    | some (g, a) =>
      if strContains original g && strContains original a then
        match added.find? (fun e2 => e2.key == e.key) with
        | some e2 =>
          if e2.version == e.version then versionViolation original rest added
          else .ok (some (e.key, e.version, e2.version))
        | none => versionViolation original rest added
      else versionViolation original rest added

/-- The rejection message of tools.py line 201. -/
def blockedDepMsg (k oldV newV : String) : String :=
  "BLOCKED: Attempt to change dependency " ++ k ++ " version from " ++ oldV ++
    " to " ++ newV ++
    ". You can only ADD new dependencies, not change existing versions."

/-- Embedding of `validate_pom_xml_changes` (tools.py lines 92-220).
`pom = none` covers both early returns "no pom.xml on disk" and
"pom.xml unreadable", which behave identically; `pom = some c` is a
readable pom with content `c`.  A `.error` result is the ValueError
raised out of the function by the key unpacking of line 193.  The final
removed-block loop of the Python function (lines 203-219) only ever
executes `pass` and is therefore not represented. -/
def validate_pom_xml_changes (diff_content : String) (pom : Option String) :
    Except String (Bool × String) :=
  if strContains (pylower diff_content) "pom.xml" then
    match pom with
    | none => .ok (true, "")
    | some original_content =>
      let ra := collectPomLines (pysplit diff_content '\n')
      match versionViolation original_content (extractDeps ra.1) (extractDeps ra.2) with
      | .error e => .error e
      | .ok (some (k, oldV, newV)) => .ok (false, blockedDepMsg k oldV newV)
      | .ok none => .ok (true, "")
  else .ok (true, "")

/-- Removed pom-section lines of a diff, as the guard collects them. -/
def removedLinesOf (diff : String) : List String :=
  (collectPomLines (pysplit diff '\n')).1

/-- Added pom-section lines of a diff, as the guard collects them. -/
def addedLinesOf (diff : String) : List String :=
  (collectPomLines (pysplit diff '\n')).2

/-! ## Pre-build validation of `_compile_maven`
(backend/app/agents/tools.py lines 339-394) -/

/-- The hard blocklist of tools.py line 345. -/
def forbidden_files_strict : List String :=
  ["build.gradle", "build.gradle.kts", "settings.gradle"]

/-- First blocklist entry whose `--- a/` or `+++ b/` header form occurs in
the lowercased diff (tools.py lines 350-352). -/
def gradleDiffBlock (diff : String) : Option String :=
  forbidden_files_strict.findSome? (fun f =>
    if strContains (pylower diff) ("--- a/" ++ f) ||
        strContains (pylower diff) ("+++ b/" ++ f) then some f
    else none)

/-- The rejection message of tools.py lines 353 and 381. -/
def gradleBlockMsg (f : String) : String :=
  "BLOCKED: Attempt to modify " ++ f ++ ". Gradle build files cannot be changed."

/-- The gradle blocklist check on a direct file-path edit (tools.py lines
374-394; a pom.xml file path only prints a warning). -/
def fileBlock (file_path : Option String) : Option String :=
  match file_path with
  | none => none
  | some fp =>
    if fp ≠ "" then
      match forbidden_files_strict.findSome? (fun f =>
          if strContains (pylower fp) f then some f else none) with
      | some f => some (gradleBlockMsg f)
      | none => none
    else none

/-- The whole early-return validation of `_compile_maven` before the sandbox
is created (tools.py lines 343-394): gradle blocklist on the diff, then
the pom guard on the diff (whose ValueError propagates out of
`_compile_maven`, hence the `.error` case), then the gradle blocklist on
a direct file-path edit.  `.ok (some m)` is the error message of the
first check that fires, `.ok none` lets the build proceed. -/
def mavenPrecheck (diff : String) (file_path : Option String) (pom : Option String) :
    Except String (Option String) :=
  if diff ≠ "" then
    match gradleDiffBlock diff with
    | some f => .ok (some (gradleBlockMsg f))
    | none =>
      if strContains (pylower diff) "pom.xml" then
        match validate_pom_xml_changes diff pom with
        | .error e => .error e
        | .ok r => if r.1 then .ok (fileBlock file_path) else .ok (some r.2)
      else .ok (fileBlock file_path)
  else .ok (fileBlock file_path)

/-- Abstract outcome of one sandboxed Maven run
(`MavenReproducerAgent.compile_maven`, external to the validation logic). -/
structure MavenBuildResult where
  compilationHasSucceeded : Bool
  testHasSucceeded : Bool
  errorText : String
deriving DecidableEq

/-- Observable result of `_compile_maven` as far as the blocking claims are
concerned: the status fields of the returned dict plus whether the
sandboxed build (the `maven_agent.start_container()` block, tools.py
line 398) was ever entered.  The blocked early returns (tools.py lines
355-360, 367-372, 383-388) fill exactly these status fields and are
emitted before the sandbox exists. -/
structure MavenReturnModel where
  compilationHasSucceeded : Bool
  testHasSucceeded : Bool
  errorText : String
  buildStarted : Bool
deriving DecidableEq

/-- Embedding of `_compile_maven`'s control flow around the sandbox: a
ValueError from the pom guard propagates out of the tool (`.error`,
before the container exists); any other pre-build check that fires
returns its message with both status flags false and never starts the
container; otherwise the abstract build result is reported and the
container ran. -/
def compile_maven_model (diff : String) (file_path : Option String)
    (pom : Option String) (build : MavenBuildResult) :
    Except String MavenReturnModel :=
  match mavenPrecheck diff file_path pom with
  | .error e => .error e
  | .ok (some msg) =>
    .ok { compilationHasSucceeded := false
          testHasSucceeded := false
          errorText := msg
          buildStarted := false }
  | .ok none =>
    .ok { compilationHasSucceeded := build.compilationHasSucceeded
          testHasSucceeded := build.testHasSucceeded
          errorText := build.errorText
          buildStarted := true }

/-! ## Working-tree persistence of `_compile_maven`
(backend/app/agents/tools.py lines 234-242, 396-420) -/

/-- Modelled from the spec: `GitAgent.discard_changes`
(app.common_agents.agent.GitAgent, not under src/) resets the working
tree to its initial checked-out state — the `reset_repo` tool docstring
(tools.py line 257) reads "Resets the project repository to the initial
state. Undoes all file changes", and the spec lists the tool as
`reset_working_tree()`.  The tree is abstracted to an arbitrary type. -/
def discardTree {α : Type} (initial : α) (_current : α) : α :=
  initial

/-- Working tree after `_compile_maven` runs on the non-blocked path with a
valid diff: `discard()` at tools.py line 397, the container applying the
diff to the tree (`MavenReproducerAgent.compile_maven`, abstracted as
`applyDiff`), then `discard()` again at tools.py line 420 after the
container exits.  `compile_maven_stateful` (tools.py line 322) calls
exactly this function. -/
def compileMavenStatefulTree {α : Type} (initial : α) (applyDiff : α → String → α)
    (t0 : α) (diff : String) : α :=
  discardTree initial (applyDiff (discardTree initial t0) diff)

/-! ## Build Diagnostics aggregation of `_compile_maven`
(backend/app/agents/tools.py lines 429-459) -/

/-- One recognized compiler error triple `(line, column, message)` for a
file, as produced by `find_compilation_errors`; line and column are the
original 1-indexed positions. -/
def ErrorTriple : Type := Nat × Nat × String

/-- The message stored per line: `f"[{line},{col}] " + error_msg`
(tools.py line 440). -/
def errorKey (line col : Nat) (msg : String) : String :=
  "[" ++ toString line ++ "," ++ toString col ++ "] " ++ msg

/-- Insertion into a Python set, embedded as an insertion-ordered
duplicate-free list (iteration order of a CPython set is unspecified;
no claim depends on it). -/
def setInsert (s : List String) (v : String) : List String :=
  if s.contains v then s else s ++ [v]

/-- One insertion into the `error_texts_per_line` defaultdict(set) of
tools.py lines 437-440. -/
def gStep (acc : List (Nat × List String)) (t : ErrorTriple) :
    List (Nat × List String) :=
  let v := errorKey t.1 t.2.1 t.2.2
  if acc.any (fun p => p.1 == t.1) then
    acc.map (fun p => if p.1 == t.1 then (p.1, setInsert p.2 v) else p)
  else acc ++ [(t.1, [v])]

/-- The `error_texts_per_line` map: an insertion-ordered map from line
number to the set of messages reported for that line. -/
def lineGroups (triples : List ErrorTriple) : List (Nat × List String) :=
  triples.foldl gStep []

/-- One line of the context window (tools.py lines 451-457). -/
structure LineInfo where
  line_no : Nat
  content : String
deriving DecidableEq

/-- The per-line diagnostic record stored in `output_errors[filename][line]`:
the context lines and the merged message list. -/
structure DiagRecord where
  lines : List LineInfo
  error_texts : List String
deriving DecidableEq

/-- The context window of tools.py lines 443-457: for a 1-indexed error
line, the 0-indexed slice `range(max(0, line-2), min(numLines, line+1))`
rendered with 1-indexed line numbers (one line before through one line
after, clamped at the file boundaries; Nat subtraction performs the
clamping at 0). -/
def contextWindow (fileLines : List String) (line : Nat) : List LineInfo :=
  let lineIndex := line - 1
  let start := lineIndex - 1
  let stop := min fileLines.length (lineIndex + 2)
  (List.range' start (stop - start)).map (fun i => ⟨i + 1, fileLines.getD i ""⟩)

/-- Diagnostic records built for one file from its content and its
recognized error triples (tools.py lines 434-459): one record per
distinct error line, in first-report order, each carrying its context
window and all messages for that line. -/
def processFileErrors (fileContent : String) (triples : List ErrorTriple) :
    List (Nat × DiagRecord) :=
  let lines := pysplit fileContent '\n'
  (lineGroups triples).map (fun p => (p.1, ⟨contextWindow lines p.1, p.2⟩))

/-- The whole `output_errors` map over the files reported by
`find_compilation_errors` (a dict, so file names are distinct); `read`
gives each file's current content.  The except-branch for unreadable
files (tools.py lines 460-465) is outside the claims and not modelled. -/
def processAllErrors (read : String → String)
    (errors : List (String × List ErrorTriple)) :
    List (String × List (Nat × DiagRecord)) :=
  errors.map (fun p => (p.1, processFileErrors (read p.1) p.2))

/-! ## `read_file_lines`
(backend/app/agents/tools.py lines 512-568) -/

/-- Helper for first-occurrence deduplication: keep elements not seen yet. -/
def dedupFirstAux {α : Type} [DecidableEq α] (seen : List α) : List α → List α
  | [] => []
  | x :: xs =>
    if x ∈ seen then dedupFirstAux seen xs
    else x :: dedupFirstAux (seen ++ [x]) xs

/-- First-occurrence-preserving deduplication; the key order of a Python
dict built by repeated insertion. -/
def dedupFirst {α : Type} [DecidableEq α] (l : List α) : List α :=
  dedupFirstAux [] l

/-- Embedding of the `read_file_lines` tool.  `file` is the outcome of
`_read_file` (including its retries): `.ok text` on success, `.error e`
when the final attempt raised with message `e`.  On success the file is
split into lines numbered from 1 and the requested line numbers are
looked up, silently skipping those not present; on failure the returned
dict is `{-1: "Error: " + e}` (tools.py line 568). -/
def read_file_lines_model (file : Except String String) (lines : List Int) :
    List (Int × String) :=
  match file with
  | .error e => [(-1, "Error: " ++ e)]
  | .ok file_text =>
    let all_lines := pysplit file_text '\n'
    (dedupFirst lines).filterMap (fun ln =>
      if 1 ≤ ln ∧ ln ≤ (all_lines.length : Int) then
        some (ln, all_lines.getD (ln - 1).toNat "")
      else none)

/-! ## `apply_diff_to_content`
(backend/app/services/github_service.py lines 419-462) -/

/-- A removed line of the naive applier: a hunk line starting with `-` but
not `---`, with the marker stripped (github_service.py lines 432-433). -/
def diffRemoval : List Char → Option (List Char)
  | [] => none
  | c :: t => if c = '-' && !(['-', '-'].isPrefixOf t) then some t else none

/-- An added line: a hunk line starting with `+` but not `+++`
(github_service.py lines 434-435). -/
def diffAddition : List Char → Option (List Char)
  | [] => none
  | c :: t => if c = '+' && !(['+', '+'].isPrefixOf t) then some t else none

/-- The replacement walk of github_service.py lines 439-460: scan the
content lines once; a line equal to the next pending removal is replaced
by the same-index addition (dropped if there is none) and the index
advances; afterwards any leftover additions are appended at the end. -/
def applyWalk (removals additions : List (List Char)) :
    List (List Char) → Nat → List (List Char)
  | [], ri => additions.drop ri
  | l :: rest, ri =>
    match removals[ri]? with
    | some r =>
      if l = r then
        match additions[ri]? with
        | some a => a :: applyWalk removals additions rest (ri + 1)
        | none => applyWalk removals additions rest (ri + 1)
      else l :: applyWalk removals additions rest ri
    | none => l :: applyWalk removals additions rest ri

/-- Embedding of `GitHubService.apply_diff_to_content`. -/
def apply_diff_to_content (original_content : String) (diff_hunks : List String) :
    String :=
  let lines := splitChar '\n' original_content.data
  let removals := diff_hunks.filterMap (fun h => diffRemoval h.data)
  let additions := diff_hunks.filterMap (fun h => diffAddition h.data)
  ⟨joinChar '\n' (applyWalk removals additions lines 0)⟩

/-- The inverse of a diff in the sense of the spec's round-trip property:
every `-` line becomes a `+` line and vice versa (file headers `---` and
`+++` are left alone). -/
def invertDiffLine (h : String) : String :=
  match diffRemoval h.data, diffAddition h.data with
  | some t, _ => ⟨'+' :: t⟩
  | none, some t => ⟨'-' :: t⟩
  | none, none => h

/-- Inverse diff: swap the `+` and `-` markers of every hunk line. -/
def invertDiff (hunks : List String) : List String :=
  hunks.map invertDiffLine

/-! ## Manifest Change Extractor — `_extract_dependency_changes`
(backend/app/masterthesis/agent/JapiCmpAgent.py lines 615-689) -/

/-- The structured record emitted per detected manifest version change. -/
structure DependencyChange where
  group_id : String
  artifact_id : String
  old_version : String
  new_version : String
deriving DecidableEq

/-- Python truthiness of an optional string: present and non-empty. -/
def truthyOpt : Option String → Bool
  | some s => s ≠ ""
  | none => false

/-- The mutable cursor of `_extract_dependency_changes`. -/
structure JState where
  group_id : Option String
  artifact_id : Option String
  old_version : Option String
  new_version : Option String
  in_dependency : Bool
  changes : List DependencyChange

/-- The initial cursor. -/
def jInit : JState :=
  ⟨none, none, none, none, false, []⟩

/-- Emission guard of JapiCmpAgent.py lines 662 and 679: all four fields
assembled and non-empty (Python truthiness). -/
def jEmit (st : JState) : List DependencyChange :=
  match st.group_id, st.artifact_id, st.old_version, st.new_version with
  | some g, some a, some o, some n =>
    if g ≠ "" && a ≠ "" && o ≠ "" && n ≠ "" then st.changes ++ [⟨g, a, o, n⟩]
    else st.changes
  | _, _, _, _ => st.changes

/-- One iteration of the scan loop (JapiCmpAgent.py lines 628-675): strip
the raw line, skip it when empty, strip a leading diff marker, open a
declaration on `<dependency>`, record tag captures while inside one
(an old version only from a `-` line, a new one only from a `+` line),
and close-and-maybe-emit on `</dependency>`. -/
def jStep (st : JState) (raw_line : String) : JState :=
  let line := pyStrip raw_line
  if line = "" then st
  else
    let content :=
      match line.data with
      | c :: t => if c = '+' || c = '-' || c = ' ' then pyStrip ⟨t⟩ else line
      | [] => line
    let st :=
      if strContains content "<dependency>" then { st with in_dependency := true }
      else st
    let st :=
      if st.in_dependency then
        let st :=
          match lazyTagSearchS "<groupId>" "</groupId>" content with
          | some g => { st with group_id := some g }
          | none => st
        let st :=
          match lazyTagSearchS "<artifactId>" "</artifactId>" content with
          | some a => { st with artifact_id := some a }
          | none => st
        let st :=
          if pyStartsWith line "-" then
            match lazyTagSearchS "<version>" "</version>" content with
            | some v => { st with old_version := some v }
            | none => st
          else st
        let st :=
          if pyStartsWith line "+" then
            match lazyTagSearchS "<version>" "</version>" content with
            | some v => { st with new_version := some v }
            | none => st
          else st
        st
      else st
    if strContains content "</dependency>" then
      { group_id := none, artifact_id := none, old_version := none
        new_version := none, in_dependency := false, changes := jEmit st }
    else st

/-- Embedding of `_extract_dependency_changes`: fold the scan over the diff
lines, then emit a record still pending at end-of-input (truncated diff,
JapiCmpAgent.py lines 677-687).  The inputs the claims quantify over are
newline-separated without a trailing newline, on which Python
`splitlines()` agrees with splitting on `'\n'`. -/
def extract_dependency_changes (pom_diff : String) : List DependencyChange :=
  if pom_diff = "" then []
  else jEmit ((pysplit pom_diff '\n').foldl jStep jInit)

/-! ## Repair Iteration Controller
(backend/app/agents/service.py lines 125-143, workflow.py lines 93-355,
core/config.py line 63) -/

/-- The configured attempt budget `MAX_REPAIR_ATTEMPTS` (config.py line 63). -/
def MAX_REPAIR_ATTEMPTS : Nat := 3

/-- The LangGraph recursion limit actually passed to `app.invoke`
(service.py line 140): the maximum number of node executions in one
session before the graph raises and the session ends. -/
def AGENT_RECURSION_LIMIT : Nat := 5

/-- The decoded Proposer output for one agent turn, as `call_model`
constructs it (workflow.py lines 99-148): at most one tool request (the
JSON path builds exactly a one-element `tool_calls` list), or message
content with or without a fenced diff.  For requests of the Maven tool
and for diff content the oracle also fixes the build outcome and whether
the pom safety check of workflow.py lines 200-215 fires. -/
inductive ProposerAct where
  | toolOther : ProposerAct
  | toolCompile : (ok : Bool) → ProposerAct
  | diffMsg : (guardTrips : Bool) → (ok : Bool) → ProposerAct
  | noDiffMsg : ProposerAct

/-- The three LangGraph nodes of workflow.py lines 345-352; `tools` and
`compile_agent` carry the message that routed to them. -/
inductive WNode where
  | agent : WNode
  | tools : ProposerAct → WNode
  | compileAgent : ProposerAct → WNode

/-- Number of `_compile_maven` executions in a session trace: `fuel` node
executions remain (the recursion limit), `i` indexes the Proposer
oracle, starting node as in `workflow.set_entry_point("agent")`.
Routing follows `should_continue` (tool call → tools, otherwise
compile_agent) and `should_improve_non_test_diff` (fully successful
build → END, otherwise back to agent); a diff whose pom safety check
fires bounces back to the agent without reaching `_compile_maven`. -/
def sessionBuilds (oracle : Nat → ProposerAct) : Nat → Nat → WNode → Nat
  | 0, _, _ => 0
  | fuel + 1, i, .agent =>
    match oracle i with
    | .toolOther => sessionBuilds oracle fuel (i + 1) (.tools .toolOther)
    | .toolCompile ok => sessionBuilds oracle fuel (i + 1) (.tools (.toolCompile ok))
    | .diffMsg g ok => sessionBuilds oracle fuel (i + 1) (.compileAgent (.diffMsg g ok))
    | .noDiffMsg => sessionBuilds oracle fuel (i + 1) (.compileAgent .noDiffMsg)
  | fuel + 1, i, .tools a =>
    match a with
    | .toolCompile true => 1
    | .toolCompile false => 1 + sessionBuilds oracle fuel i .agent
    | _ => sessionBuilds oracle fuel i .agent
  | fuel + 1, i, .compileAgent a =>
    match a with
    | .diffMsg true _ => sessionBuilds oracle fuel i .agent
    | .diffMsg false true => 1
    | .diffMsg false false => 1 + sessionBuilds oracle fuel i .agent
    | _ => sessionBuilds oracle fuel i .agent

/-! ## Diff Applier
Modelled from the spec: the Applier used by the validation path is
`UnifiedDiffCoder.apply_edits` (app.common_agents.agent.aider.
AdvancedDiffAgent), which is not under src/; only its caller
`validate_diffs` (tools.py lines 271-309) is.  The definitions below
follow spec section 4.3 word for word: per-file sections of hunks; per
hunk an exact contiguous match of context+removed lines, a
whitespace-normalized retry, rejection naming the hunk; on match the
span is replaced by context+added lines; hunks of one file apply in
sequence against an in-memory copy, files are independent; the whole
submission is rejected if any hunk fails, and a separate explicit commit
step performs persistence. -/

/-- Decidable equality for `Except`, used to evaluate applier results on
concrete inputs. -/
instance {ε α : Type} [DecidableEq ε] [DecidableEq α] : DecidableEq (Except ε α)
  | .error x, .error y =>
    if h : x = y then .isTrue (h ▸ rfl)
    else .isFalse (fun hc => h (Except.error.inj hc))
  | .error _, .ok _ => .isFalse (fun hc => Except.noConfusion hc)
  | .ok _, .error _ => .isFalse (fun hc => Except.noConfusion hc)
  | .ok x, .ok y =>
    if h : x = y then .isTrue (h ▸ rfl)
    else .isFalse (fun hc => h (Except.ok.inj hc))

/-- One contiguous edit region of a unified diff (spec section 3,
DiffHunk). -/
structure DiffHunk where
  filePath : String
  contextBefore : List String
  removedLines : List String
  addedLines : List String
  contextAfter : List String
deriving DecidableEq

/-- The block a hunk must locate in the current content: its context and
removed lines, in order. -/
def hunkPattern (h : DiffHunk) : List String :=
  h.contextBefore ++ h.removedLines ++ h.contextAfter

/-- What the located block is replaced with: context and added lines. -/
def hunkReplacement (h : DiffHunk) : List String :=
  h.contextBefore ++ h.addedLines ++ h.contextAfter

/-- Whitespace normalization for the fuzzy retry. -/
def normWs (s : String) : String :=
  ⟨s.data.filter (fun c => !c.isWhitespace)⟩

/-- Whether `pat` matches the beginning of `content` line by line under a
comparison. -/
def blockMatch (cmp : String → String → Bool) : List String → List String → Bool
  | [], _ => true
  | _ :: _, [] => false
  | p :: ps, c :: cs => cmp p c && blockMatch cmp ps cs

/-- First index at which `pat` occurs as a contiguous block of `content`
under a comparison (the original behaviour picks the first fuzzy match;
spec section 9 flags but preserves this). -/
def findBlockIdx (cmp : String → String → Bool) (pat : List String) :
    List String → Option Nat
  | [] => if blockMatch cmp pat [] then some 0 else none
  | c :: rest =>
    if blockMatch cmp pat (c :: rest) then some 0
    else (findBlockIdx cmp pat rest).map (· + 1)

/-- Apply one hunk to in-memory content: exact match first, then the
whitespace-normalized retry, `none` when both fail. -/
def applyHunkTo (content : List String) (h : DiffHunk) : Option (List String) :=
  let pat := hunkPattern h
  match findBlockIdx (fun a b => a == b) pat content with
  | some i => some (content.take i ++ hunkReplacement h ++ content.drop (i + pat.length))
  | none =>
    match findBlockIdx (fun a b => normWs a == normWs b) pat content with
    | some i => some (content.take i ++ hunkReplacement h ++ content.drop (i + pat.length))
    | none => none

/-- Apply a file's hunks in sequence, each seeing the previous edits; the
first hunk that cannot be located aborts the file with that hunk as the
failure reason. -/
def applyHunksSeq (content : List String) : List DiffHunk → Except DiffHunk (List String)
  | [] => .ok content
  | h :: rest =>
    match applyHunkTo content h with
    | some c2 => applyHunksSeq c2 rest
    | none => .error h

/-- The files a diff touches, in order of first appearance. -/
def filesOf (hunks : List DiffHunk) : List String :=
  dedupFirst (hunks.map (fun h => h.filePath))

/-- The hunks of one file, in diff order. -/
def hunksFor (hunks : List DiffHunk) (f : String) : List DiffHunk :=
  hunks.filter (fun h => h.filePath == f)

/-- Apply every file's hunks against the tree; any failing hunk rejects the
whole submission, the failure reason carrying the file and the hunk. -/
def applyFiles (tree : String → List String) (hunks : List DiffHunk) :
    List String → Except (String × DiffHunk) (List (String × List String))
  | [] => .ok []
  | f :: fs =>
    match applyHunksSeq (tree f) (hunksFor hunks f) with
    | .error h => .error (f, h)
    | .ok c2 =>
      match applyFiles tree hunks fs with
      | .error e => .error e
      | .ok rest => .ok ((f, c2) :: rest)

/-- The Applier: compute new content per file or reject the whole
submission. -/
def apply_edits (tree : String → List String) (hunks : List DiffHunk) :
    Except (String × DiffHunk) (List (String × List String)) :=
  applyFiles tree hunks (filesOf hunks)

/-- The separate explicit commit step (spec section 4.3: the apply step
never writes to disk): a rejected submission leaves the tree untouched,
an accepted one installs the computed contents. -/
def commitApply (tree : String → List String)
    (r : Except (String × DiffHunk) (List (String × List String))) :
    String → List String :=
  match r with
  | .error _ => tree
  | .ok ups => fun f =>
    match ups.find? (fun p => p.1 == f) with
    | some p => p.2
    | none => tree f

/-! ## Concrete inputs used by counterexamples and witnesses -/

/-- A manifest diff that changes the pinned version of commons-io from 2.6
to 2.15.1 in the usual unified-diff shape: the groupId and artifactId
lines are unchanged context, only the version lines carry markers. -/
def pomCtxDiff : String :=
  "--- a/pom.xml\n+++ b/pom.xml\n@@ -10,7 +10,7 @@\n     <dependency>\n       <groupId>commons-io</groupId>\n       <artifactId>commons-io</artifactId>\n-      <version>2.6</version>\n+      <version>2.15.1</version>\n     </dependency>"

/-- The same version change written with the whole block removed and
re-added, so the coordinate lines appear among the removed and added
lines themselves. -/
def pomBlockDiff : String :=
  "--- a/pom.xml\n+++ b/pom.xml\n@@ -10,7 +10,7 @@\n-      <groupId>commons-io</groupId>\n-      <artifactId>commons-io</artifactId>\n-      <version>2.6</version>\n+      <groupId>commons-io</groupId>\n+      <artifactId>commons-io</artifactId>\n+      <version>2.15.1</version>"

/-- A minimal on-disk pom.xml that already declares commons-io 2.6. -/
def pomOnDisk : String :=
  "<project>\n  <dependencies>\n    <dependency>\n      <groupId>commons-io</groupId>\n      <artifactId>commons-io</artifactId>\n      <version>2.6</version>\n    </dependency>\n  </dependencies>\n</project>"

/-- A manifest diff that only adds a brand-new dependency block. -/
def pomAddOnlyDiff : String :=
  "--- a/pom.xml\n+++ b/pom.xml\n@@ -20,0 +21,5 @@\n+    <dependency>\n+      <groupId>org.apache.commons</groupId>\n+      <artifactId>commons-lang3</artifactId>\n+      <version>3.14.0</version>\n+    </dependency>"

/-- A manifest diff that removes (without re-adding) a dependency block
whose groupId contains a colon, so the guard's key re-splitting cannot
unpack into two values. -/
def pomColonDiff : String :=
  "--- a/pom.xml\n+++ b/pom.xml\n@@ -10,5 +10,0 @@\n-    <dependency>\n-      <groupId>a:b</groupId>\n-      <artifactId>c</artifactId>\n-      <version>1</version>\n-    </dependency>"

/-- A diff whose headers name build.gradle.kts, a blocklisted file. -/
def ktsDiff : String :=
  "--- a/build.gradle.kts\n+++ b/build.gradle.kts\n@@ -1,1 +1,1 @@\n-version = 1\n+version = 2"

/-- An arbitrary sandbox outcome, for evaluating the blocking paths (which
never reach the sandbox). -/
def sampleBuild : MavenBuildResult :=
  ⟨true, true, ""⟩

/-- The manifest diff of the C7 scenario truncated before the closing
dependency tag. -/
def pomCtxDiffTruncated : String :=
  "--- a/pom.xml\n+++ b/pom.xml\n@@ -10,7 +10,7 @@\n     <dependency>\n       <groupId>commons-io</groupId>\n       <artifactId>commons-io</artifactId>\n-      <version>2.6</version>\n+      <version>2.15.1</version>"

/-- A two-file working tree for exercising the Diff Applier. -/
def wTree : String → List String :=
  fun f => if f == "A.java" then ["int x;", "int y;"] else ["foo"]

/-- A hunk that applies cleanly to A.java. -/
def wHunkA : DiffHunk :=
  ⟨"A.java", ["int x;"], [], ["int a;"], []⟩

/-- A hunk whose context cannot be located in B.java. -/
def wHunkB : DiffHunk :=
  ⟨"B.java", ["bar"], [], ["baz"], []⟩

/-! # Theorems -/

set_option maxRecDepth 400000

/-- Helper: the guard allows a diff whenever the version-change loop
finishes without raising and without finding a violation. -/
theorem validate_allows_of_no_violation (diff : String) (pom : Option String)
    (h : ∀ original, pom = some original →
      versionViolation original (extractDeps (removedLinesOf diff))
        (extractDeps (addedLinesOf diff)) = .ok none) :
    validate_pom_xml_changes diff pom = .ok (true, "") := by
  unfold validate_pom_xml_changes
  cases hc : strContains (pylower diff) "pom.xml" with
  | false => simp [hc]
  | true =>
    simp only [hc, if_true]
    cases pom with
    | none => rfl
    | some original =>
      have := h original rfl
      unfold removedLinesOf addedLinesOf at this
      simp only [this]

/-- Helper: the version-change loop runs to completion when every removed
entry's key unpacks into two values and is never re-added. -/
theorem versionViolation_ok_none (original : String) :
    ∀ (removed added : List DepEntry),
      (∀ e ∈ removed, (∃ g a, pySplitColon e.key = some (g, a)) ∧
        added.find? (fun e2 => e2.key == e.key) = none) →
      versionViolation original removed added = .ok none := by
  intro removed
  induction removed with
  | nil => intro added _; rfl
  | cons e rest ih =>
    intro added h
    obtain ⟨⟨g, a, hsplit⟩, hfind⟩ := h e (List.mem_cons_self e rest)
    have hrec := ih added (fun e2 he2 => h e2 (List.mem_cons_of_mem e he2))
    rw [versionViolation]
    simp only [hsplit, hfind]
    cases hC : strContains original g && strContains original a <;> simp [hC, hrec]

/-- C1 (counterexample): a manifest diff that changes the pinned version of
commons-io:commons-io — a coordinate present in the on-disk pom.xml,
with a removed and an added version line carrying different values — in
the ordinary unified-diff shape where the groupId/artifactId lines are
unchanged context.  The Guard returns allowed=true, because it searches
for the coordinate only among the removed and added lines themselves
(tools.py lines 149-160), and they carry no coordinate here. -/
theorem guard_misses_context_coordinate :
    validate_pom_xml_changes pomCtxDiff (some pomOnDisk) = .ok (true, "") ∧
    removedLinesOf pomCtxDiff = ["      <version>2.6</version>"] ∧
    addedLinesOf pomCtxDiff = ["      <version>2.15.1</version>"] ∧
    strContains pomOnDisk "<groupId>commons-io</groupId>" = true ∧
    strContains pomOnDisk "<artifactId>commons-io</artifactId>" = true := by
  decide

/-- C1 (amended): for every manifest diff (naming pom.xml) and every
readable on-disk pom, whenever the guard's backward scan extracts as its
first removed dependency an entry whose key splits into the names `g`
and `a`, both names occur as substrings of the on-disk pom, and the
added side maps the same key to a different version, the Guard returns
allowed=false with the message naming the coordinate and both versions.
This is the precise condition the code enforces: when the coordinate
lines are unchanged context the scan extracts nothing (counterexample
above), and a different tag — such as an exclusions groupId — inside
the five-line window re-binds the scan, so the published window proviso
alone does not suffice. -/
theorem guard_blocks_version_change (diff original : String) (e : DepEntry)
    (rest : List DepEntry) (g a newV : String)
    (hpom : strContains (pylower diff) "pom.xml" = true)
    (hrem : extractDeps (removedLinesOf diff) = e :: rest)
    (hsplit : pySplitColon e.key = some (g, a))
    (hg : strContains original g = true)
    (ha : strContains original a = true)
    (hfind : (extractDeps (addedLinesOf diff)).find? (fun e2 => e2.key == e.key) =
      some ⟨e.key, newV⟩)
    (hne : newV ≠ e.version) :
    validate_pom_xml_changes diff (some original) =
      .ok (false, blockedDepMsg e.key e.version newV) := by
  unfold removedLinesOf at hrem
  unfold addedLinesOf at hfind
  unfold validate_pom_xml_changes
  simp only [hpom, if_true, hrem]
  rw [versionViolation]
  simp only [hsplit, hg, ha, Bool.and_self, if_true, hfind]
  simp [hne]

/-- C1 (witness): the amended theorem applied to a whole-block version
change of commons-io against the concrete on-disk pom. -/
theorem guard_blocks_version_change_witness :
    extractDeps (removedLinesOf pomBlockDiff) = [⟨"commons-io:commons-io", "2.6"⟩] ∧
    strContains pomOnDisk "commons-io" = true ∧
    validate_pom_xml_changes pomBlockDiff (some pomOnDisk) =
      .ok (false, blockedDepMsg "commons-io:commons-io" "2.6" "2.15.1") :=
  ⟨by decide, by decide,
   guard_blocks_version_change pomBlockDiff pomOnDisk ⟨"commons-io:commons-io", "2.6"⟩
     [] "commons-io" "commons-io" "2.15.1" (by decide) (by decide) (by decide)
     (by decide) (by decide) (by decide) (by decide)⟩

/-- C6 (counterexample): a manifest diff that removes — without re-adding —
a dependency block whose groupId contains a colon.  The removed key
"a:b:c" does not unpack into two values, so the Python guard raises
ValueError at tools.py line 193 instead of returning allowed=true:
removal without re-addition is not tolerated on this input. -/
theorem guard_raises_on_colon_coordinate :
    extractDeps (removedLinesOf pomColonDiff) = [⟨"a:b:c", "1"⟩] ∧
    extractDeps (addedLinesOf pomColonDiff) = [] ∧
    validate_pom_xml_changes pomColonDiff (some pomOnDisk) =
      .error ("ValueError: unpacking a:b:c") := by
  decide

/-- C6 (amended): the Guard allows every manifest diff whose edits only add
new content (no removed pom-section lines); and it also allows every
manifest diff whose removed dependencies are not re-added under the same
coordinate, provided each removed key unpacks into two colon-separated
names — removal without re-addition is tolerated.  A removed coordinate
containing a colon instead makes the guard raise ValueError
(counterexample above). -/
theorem guard_allows_additive_and_removal (diff : String) (pom : Option String)
    (h : removedLinesOf diff = [] ∨
      ∀ e ∈ extractDeps (removedLinesOf diff),
        (∃ g a, pySplitColon e.key = some (g, a)) ∧
        (extractDeps (addedLinesOf diff)).find? (fun e2 => e2.key == e.key) = none) :
    validate_pom_xml_changes diff pom = .ok (true, "") := by
  apply validate_allows_of_no_violation
  intro original _
  cases h with
  | inl h0 => rw [h0]; rfl
  | inr hAll => exact versionViolation_ok_none original _ _ hAll

/-- C6 (witness): an additions-only dependency diff passes the Guard. -/
theorem guard_allows_additive_witness :
    removedLinesOf pomAddOnlyDiff = [] ∧
    validate_pom_xml_changes pomAddOnlyDiff (some pomOnDisk) = .ok (true, "") :=
  ⟨by decide, guard_allows_additive_and_removal pomAddOnlyDiff (some pomOnDisk)
    (Or.inl (by decide))⟩

/-- C7: a manifest diff upgrading commons-io:commons-io from 2.6 to 2.15.1
and changing nothing else yields exactly one DependencyChange with both
versions; the same diff truncated before the closing dependency tag
still yields that record, emitted at end-of-input. -/
theorem extractor_commons_io_scenario :
    extract_dependency_changes pomCtxDiff =
      [⟨"commons-io", "commons-io", "2.6", "2.15.1"⟩] ∧
    extract_dependency_changes pomCtxDiffTruncated =
      [⟨"commons-io", "commons-io", "2.6", "2.15.1"⟩] := by
  decide

/-- C3: the working tree after `compile_maven_stateful` equals the initial
checked-out tree, because `_compile_maven` calls `discard()` again after
the sandboxed build (tools.py line 420); whenever the diff changes
anything, the changes are therefore absent from the tree on return,
contradicting the tool's own docstring ("The Diff applied here will
persist to the disk, unless the repository is reset after", tools.py
line 324) and the spec's persistent-by-default contract. -/
theorem compile_maven_stateful_discards {α : Type} (initial : α)
    (applyDiff : α → String → α) (t0 : α) (diff : String) :
    compileMavenStatefulTree initial applyDiff t0 diff = initial ∧
    (applyDiff initial diff ≠ initial →
      compileMavenStatefulTree initial applyDiff t0 diff ≠ applyDiff initial diff) := by
  refine ⟨rfl, fun h hc => h ?_⟩
  exact hc.symm.trans rfl

/-- C3 (witness): a concrete tree model where the diff visibly changes the
tree, evaluated through the theorem. -/
theorem compile_maven_stateful_discards_witness :
    (fun (_ : Nat) (_ : String) => 1) 0 "d" ≠ 0 ∧
    compileMavenStatefulTree 0 (fun (_ : Nat) (_ : String) => 1) 5 "d" ≠
      (fun (_ : Nat) (_ : String) => 1) 0 "d" :=
  ⟨by decide,
   (compile_maven_stateful_discards 0 (fun _ _ => 1) 5 "d").2 (by decide)⟩

/-- Helper: a substring occurring in the middle of a character list is
found by `containsSub`. -/
theorem containsSub_middle (a pat b : List Char) :
    containsSub (a ++ pat ++ b) pat = true := by
  induction a with
  | nil =>
    unfold containsSub
    have : pat.isPrefixOf (pat ++ b) = true := by
      rw [List.isPrefixOf_iff_prefix]
      exact ⟨b, rfl⟩
    simp [this]
  | cons c cs ih =>
    unfold containsSub
    cases h : pat.isPrefixOf (c :: (cs ++ (pat ++ b))) with
    | true => simp [h]
    | false =>
      simpa [h] using ih

/-- C9 (counterexample): a diff touching only build.gradle.kts is rejected
before the build, but the failure text names build.gradle — the first
blocklist entry that matches as a substring — and does not contain the
touched file's name build.gradle.kts. -/
theorem gradle_block_names_wrong_file :
    compile_maven_model ktsDiff none (some pomOnDisk) sampleBuild =
      .ok { compilationHasSucceeded := false
            testHasSucceeded := false
            errorText := gradleBlockMsg "build.gradle"
            buildStarted := false } ∧
    strContains (pylower ktsDiff) "--- a/build.gradle.kts" = true ∧
    strContains (gradleBlockMsg "build.gradle") "build.gradle.kts" = false := by
  decide

/-- C9 (amended): every non-empty diff whose lowercased text contains a
`--- a/` or `+++ b/` header form of a blocklisted gradle file is rejected
before the sandbox: the result is failed, the sandboxed build is never
started, and the error text names the first blocklist entry the diff
matches (which is the touched file itself except for build.gradle.kts,
where the entry build.gradle matches first as a substring). -/
theorem compile_maven_blocks_gradle (diff : String) (file_path : Option String)
    (pom : Option String) (build : MavenBuildResult) (f : String)
    (hf : f ∈ forbidden_files_strict)
    (htouch : strContains (pylower diff) ("--- a/" ++ f) = true ∨
      strContains (pylower diff) ("+++ b/" ++ f) = true)
    (hne : diff ≠ "") :
    ∃ fb ∈ forbidden_files_strict,
      compile_maven_model diff file_path pom build =
        .ok { compilationHasSucceeded := false
              testHasSucceeded := false
              errorText := gradleBlockMsg fb
              buildStarted := false } ∧
      strContains (gradleBlockMsg fb) fb = true := by
  have hblock : gradleDiffBlock diff ≠ none := by
    intro h0
    have := List.findSome?_eq_none_iff.mp h0 f hf
    rcases htouch with ht | ht <;> simp [ht] at this
  cases hb : gradleDiffBlock diff with
  | none => exact absurd hb hblock
  | some fb =>
    have hmem : fb ∈ forbidden_files_strict := by
      obtain ⟨a, ha, hfa⟩ := List.exists_of_findSome?_eq_some hb
      by_cases hc : (strContains (pylower diff) ("--- a/" ++ a) ||
          strContains (pylower diff) ("+++ b/" ++ a)) = true
      · rw [if_pos hc] at hfa
        exact (Option.some.inj hfa) ▸ ha
      · rw [if_neg hc] at hfa
        cases hfa
    refine ⟨fb, hmem, ?_, ?_⟩
    · unfold compile_maven_model mavenPrecheck
      simp only [hne, if_true, ne_eq, not_false_eq_true, hb]
    · show containsSub (gradleBlockMsg fb).data fb.data = true
      have : (gradleBlockMsg fb).data =
          ("BLOCKED: Attempt to modify " : String).data ++ fb.data ++
            (". Gradle build files cannot be changed." : String).data := by
        unfold gradleBlockMsg
        simp [String.data_append]
      rw [this]
      exact containsSub_middle _ _ _

/-- C9 (witness): the amended theorem applied to the build.gradle.kts diff. -/
theorem compile_maven_blocks_gradle_witness :
    ∃ fb ∈ forbidden_files_strict,
      compile_maven_model ktsDiff none none sampleBuild =
        .ok { compilationHasSucceeded := false
              testHasSucceeded := false
              errorText := gradleBlockMsg fb
              buildStarted := false } ∧
      strContains (gradleBlockMsg fb) fb = true :=
  compile_maven_blocks_gradle ktsDiff none none sampleBuild "build.gradle.kts"
    (by decide) (Or.inl (by decide)) (by decide)

/-- Helper: deduplication with a seen-set keeps exactly the unseen
elements. -/
theorem mem_dedupFirstAux {α : Type} [DecidableEq α] (a : α) :
    ∀ (l seen : List α), a ∈ dedupFirstAux seen l ↔ a ∈ l ∧ a ∉ seen := by
  intro l
  induction l with
  | nil => intro seen; simp [dedupFirstAux]
  | cons x xs ih =>
    intro seen
    rw [dedupFirstAux]
    by_cases hx : x ∈ seen
    · rw [if_pos hx, ih seen]
      constructor
      · rintro ⟨h1, h2⟩; exact ⟨List.mem_cons_of_mem x h1, h2⟩
      · rintro ⟨h1, h2⟩
        rcases List.mem_cons.mp h1 with h | h
        · exact absurd (h ▸ hx) h2
        · exact ⟨h, h2⟩
    · rw [if_neg hx]
      simp only [List.mem_cons, ih (seen ++ [x]), List.mem_append,
        List.mem_singleton]
      by_cases hax : a = x
      · simp [hax, hx]
      · simp [hax]

/-- Helper: deduplication preserves membership. -/
theorem mem_dedupFirst {α : Type} [DecidableEq α] (a : α) :
    ∀ l : List α, a ∈ dedupFirst l ↔ a ∈ l := by
  intro l
  unfold dedupFirst
  rw [mem_dedupFirstAux]
  simp

/-- C10: `read_file_lines` on a readable file returns a map whose keys are
exactly the requested 1-indexed line numbers that exist in the file —
out-of-range requests are silently omitted — and on an unreadable file
returns the map from -1 to the error message instead of propagating the
exception. -/
theorem read_file_lines_keys :
    (∀ (e : String) (lines : List Int),
      read_file_lines_model (.error e) lines = [(-1, "Error: " ++ e)]) ∧
    (∀ (text : String) (lines : List Int) (ln : Int),
      ln ∈ (read_file_lines_model (.ok text) lines).map Prod.fst ↔
        ln ∈ lines ∧ 1 ≤ ln ∧ ln ≤ ((pysplit text '\n').length : Int)) := by
  refine ⟨fun e lines => rfl, fun text lines ln => ?_⟩
  simp only [read_file_lines_model, List.map_filterMap, List.mem_filterMap,
    mem_dedupFirst]
  constructor
  · rintro ⟨a, ha, hfa⟩
    by_cases hP : 1 ≤ a ∧ a ≤ ((pysplit text '\n').length : Int)
    · rw [if_pos hP] at hfa
      have haln : a = ln := Option.some.inj hfa
      exact haln ▸ ⟨ha, hP⟩
    · rw [if_neg hP] at hfa
      cases hfa
  · rintro ⟨h1, h2, h3⟩
    refine ⟨ln, h1, ?_⟩
    rw [if_pos ⟨h2, h3⟩]
    rfl

/-- Helper: at most every second node execution of a session can run
`_compile_maven`, because every build is launched from a node that an
agent node routed to. -/
theorem sessionBuilds_le (oracle : Nat → ProposerAct) :
    ∀ (fuel i : Nat) (node : WNode),
      sessionBuilds oracle fuel i node ≤
        (fuel + (match node with | .agent => 0 | _ => 1)) / 2 := by
  intro fuel
  induction fuel with
  | zero => intro i node; simp [sessionBuilds]
  | succ fuel ih =>
    intro i node
    cases node with
    | agent =>
      simp only [sessionBuilds]
      cases h : oracle i with
      | toolOther =>
        have := ih (i + 1) (.tools .toolOther)
        simp only at this ⊢
        omega
      | toolCompile ok =>
        have := ih (i + 1) (.tools (.toolCompile ok))
        simp only at this ⊢
        omega
      | diffMsg g ok =>
        have := ih (i + 1) (.compileAgent (.diffMsg g ok))
        simp only at this ⊢
        omega
      | noDiffMsg =>
        have := ih (i + 1) (.compileAgent .noDiffMsg)
        simp only at this ⊢
        omega
    | tools a =>
      simp only [sessionBuilds]
      have hA := ih i .agent
      simp only at hA
      cases a with
      | toolOther => simp only; omega
      | toolCompile ok => cases ok <;> simp only <;> omega
      | diffMsg g ok => simp only; omega
      | noDiffMsg => simp only; omega
    | compileAgent a =>
      simp only [sessionBuilds]
      have hA := ih i .agent
      simp only at hA
      cases a with
      | toolOther => simp only; omega
      | toolCompile ok => simp only; omega
      | diffMsg g ok => cases g <;> cases ok <;> simp only <;> omega
      | noDiffMsg => simp only; omega

/-- C4: in one repair session — bounded by the LangGraph recursion limit of
5 node executions that `process_repository` passes to `app.invoke` — the
number of `_compile_maven` executions (and with it the number of
sandboxed Maven builds) never exceeds the configured attempt budget
`MAX_REPAIR_ATTEMPTS`; the de-facto attempt counter, the number of
builds issued so far, therefore never exceeds the budget either. -/
theorem session_builds_within_budget (oracle : Nat → ProposerAct) :
    sessionBuilds oracle AGENT_RECURSION_LIMIT 0 .agent ≤ MAX_REPAIR_ATTEMPTS := by
  have := sessionBuilds_le oracle AGENT_RECURSION_LIMIT 0 .agent
  simp only [AGENT_RECURSION_LIMIT, MAX_REPAIR_ATTEMPTS] at this ⊢
  omega

/-- Helper: membership of the inserted element in a set insertion. -/
theorem mem_setInsert_self (s : List String) (w : String) : w ∈ setInsert s w := by
  unfold setInsert
  cases h : s.contains w with
  | true =>
    simp only [if_pos]
    exact List.elem_iff.mp h
  | false =>
    simp [h]

/-- Helper: set insertion preserves membership. -/
theorem mem_setInsert_of_mem (s : List String) (v w : String) (h : v ∈ s) :
    v ∈ setInsert s w := by
  unfold setInsert
  cases hc : s.contains w with
  | true => simpa using h
  | false => simp [h]

/-- Helper: the keys after one grouping step. -/
theorem gStep_keys (acc : List (Nat × List String)) (t : ErrorTriple) :
    (gStep acc t).map Prod.fst =
      if acc.any (fun p => p.1 == t.1) then acc.map Prod.fst
      else acc.map Prod.fst ++ [t.1] := by
  unfold gStep
  cases h : acc.any (fun p => p.1 == t.1) with
  | true =>
    simp only [h, if_true, List.map_map]
    refine List.map_congr_left (fun p _ => ?_)
    by_cases hpt : p.1 = t.1 <;> simp [hpt]
  | false => simp [h]

/-- Helper: one grouping step keeps the line keys duplicate-free. -/
theorem gStep_keys_nodup (acc : List (Nat × List String)) (t : ErrorTriple)
    (h : (acc.map Prod.fst).Nodup) : ((gStep acc t).map Prod.fst).Nodup := by
  rw [gStep_keys]
  cases hany : acc.any (fun p => p.1 == t.1) with
  | true => simpa using h
  | false =>
    have hnot : t.1 ∉ acc.map Prod.fst := by
      intro hmem
      obtain ⟨p, hp, hpk⟩ := List.mem_map.mp hmem
      have := List.any_eq_false.mp hany p hp
      simp [hpk] at this
    simp [List.nodup_append, h, hnot]

/-- Helper: one grouping step preserves every stored message. -/
theorem gStep_mem_mono (acc : List (Nat × List String)) (t : ErrorTriple)
    (k : Nat) (v : String) (h : ∃ q ∈ acc, q.1 = k ∧ v ∈ q.2) :
    ∃ q ∈ gStep acc t, q.1 = k ∧ v ∈ q.2 := by
  obtain ⟨q, hq, hk, hv⟩ := h
  unfold gStep
  cases hany : acc.any (fun p => p.1 == t.1) with
  | false =>
    refine ⟨q, ?_, hk, hv⟩
    simp [List.mem_append, hq]
  | true =>
    refine ⟨if q.1 == t.1 then (q.1, setInsert q.2 (errorKey t.1 t.2.1 t.2.2)) else q,
      List.mem_map_of_mem _ hq, ?_, ?_⟩
    · by_cases hqt : q.1 = t.1 <;> simp [hqt, ← hk]
    · by_cases hqt : q.1 = t.1
      · simp only [hqt, beq_self_eq_true, if_true]
        exact mem_setInsert_of_mem _ _ _ hv
      · have hb : (q.1 == t.1) = false := by simp [hqt]
        simp only [hb, Bool.false_eq_true, if_false]
        exact hv

/-- Helper: after one grouping step the triple's own message is stored
under the triple's line. -/
theorem gStep_mem_self (acc : List (Nat × List String)) (t : ErrorTriple) :
    ∃ q ∈ gStep acc t, q.1 = t.1 ∧ errorKey t.1 t.2.1 t.2.2 ∈ q.2 := by
  unfold gStep
  cases hany : acc.any (fun p => p.1 == t.1) with
  | false =>
    refine ⟨(t.1, [errorKey t.1 t.2.1 t.2.2]), ?_, rfl, by simp⟩
    simp
  | true =>
    obtain ⟨p, hp, hpt⟩ := List.any_eq_true.mp hany
    refine ⟨(p.1, setInsert p.2 (errorKey t.1 t.2.1 t.2.2)), ?_, ?_,
      mem_setInsert_self _ _⟩
    · have himg : (fun q => if q.1 == t.1 then
          (q.1, setInsert q.2 (errorKey t.1 t.2.1 t.2.2)) else q) p =
          (p.1, setInsert p.2 (errorKey t.1 t.2.1 t.2.2)) := by
        simp [hpt]
      exact himg ▸ List.mem_map_of_mem _ hp
    · simpa using hpt

/-- Helper: the grouping fold keeps keys duplicate-free, preserves stored
messages, and stores every incoming triple's message under its line. -/
theorem lineGroups_fold (ts : List ErrorTriple) :
    ∀ acc : List (Nat × List String),
      ((acc.map Prod.fst).Nodup → ((ts.foldl gStep acc).map Prod.fst).Nodup) ∧
      (∀ q ∈ acc, ∀ v ∈ q.2, ∃ q2 ∈ ts.foldl gStep acc, q2.1 = q.1 ∧ v ∈ q2.2) ∧
      (∀ t ∈ ts, ∃ q ∈ ts.foldl gStep acc,
        q.1 = t.1 ∧ errorKey t.1 t.2.1 t.2.2 ∈ q.2) := by
  induction ts with
  | nil =>
    intro acc
    exact ⟨id, fun q hq v hv => ⟨q, hq, rfl, hv⟩, by simp⟩
  | cons t ts ih =>
    intro acc
    simp only [List.foldl_cons]
    refine ⟨?_, ?_, ?_⟩
    · intro h
      exact (ih (gStep acc t)).1 (gStep_keys_nodup acc t h)
    · intro q hq v hv
      obtain ⟨q1, hq1, hk1, hv1⟩ := gStep_mem_mono acc t q.1 v ⟨q, hq, rfl, hv⟩
      obtain ⟨q2, hq2, hk2, hv2⟩ := (ih (gStep acc t)).2.1 q1 hq1 v hv1
      exact ⟨q2, hq2, hk2.trans hk1, hv2⟩
    · intro t2 ht2
      rcases List.mem_cons.mp ht2 with h | h
      · subst h
        obtain ⟨q1, hq1, hk1, hv1⟩ := gStep_mem_self acc t2
        obtain ⟨q2, hq2, hk2, hv2⟩ := (ih (gStep acc t2)).2.1 q1 hq1 _ hv1
        exact ⟨q2, hq2, hk2.trans hk1, hv2⟩
      · exact (ih (gStep acc t)).2.2 t2 h

/-- C8: the Build Diagnostics aggregation emits one record per reported
line — the line keys are duplicate-free and every recognized triple's
message is stored under its line — and in the two-errors-on-line-42
scenario a single record carries both messages with the context window
spanning lines 41-43 (1-indexed, clamped by `min` at the file end). -/
theorem diagnostics_one_record_per_line :
    (∀ triples : List ErrorTriple,
      ((lineGroups triples).map Prod.fst).Nodup ∧
      ∀ t ∈ triples, ∃ q ∈ lineGroups triples,
        q.1 = t.1 ∧ errorKey t.1 t.2.1 t.2.2 ∈ q.2) ∧
    (∀ content : String,
      43 ≤ (pysplit content '\n').length →
      processFileErrors content
          [(42, 5, "cannot find symbol"), (42, 9, "incompatible types")] =
        [(42, { lines := [⟨41, (pysplit content '\n').getD 40 ""⟩,
                          ⟨42, (pysplit content '\n').getD 41 ""⟩,
                          ⟨43, (pysplit content '\n').getD 42 ""⟩],
                error_texts := ["[42,5] cannot find symbol",
                                "[42,9] incompatible types"] })]) := by
  constructor
  · intro triples
    refine ⟨(lineGroups_fold triples []).1 (by simp), (lineGroups_fold triples []).2.2⟩
  · intro content h
    have hg : lineGroups [(42, 5, "cannot find symbol"), (42, 9, "incompatible types")] =
        [(42, ["[42,5] cannot find symbol", "[42,9] incompatible types"])] := by
      decide
    simp only [processFileErrors, hg, List.map_cons, List.map_nil, contextWindow]
    rw [Nat.min_eq_right h]
    norm_num
    rfl

/-- C8 (witness): the scenario evaluated on a concrete 43-line file,
through the theorem. -/
theorem diagnostics_one_record_per_line_witness :
    43 ≤ (pysplit (pyjoin '\n' ((List.range 43).map (fun i => "line" ++ toString (i + 1)))) '\n').length ∧
    processFileErrors (pyjoin '\n' ((List.range 43).map (fun i => "line" ++ toString (i + 1))))
        [(42, 5, "cannot find symbol"), (42, 9, "incompatible types")] =
      [(42, { lines := [⟨41, "line41"⟩, ⟨42, "line42"⟩, ⟨43, "line43"⟩],
              error_texts := ["[42,5] cannot find symbol",
                              "[42,9] incompatible types"] })] := by
  refine ⟨by decide, ?_⟩
  have := diagnostics_one_record_per_line.2
    (pyjoin '\n' ((List.range 43).map (fun i => "line" ++ toString (i + 1)))) (by decide)
  rw [this]
  decide

/-- Helper: splitting never yields the empty list of parts. -/
theorem splitChar_ne_nil (sep : Char) : ∀ l, splitChar sep l ≠ [] := by
  intro l
  cases l with
  | nil => simp [splitChar]
  | cons c rest =>
    simp only [splitChar]
    cases h : splitChar sep rest with
    | nil => simp
    | cons hd tl => by_cases hc : c = sep <;> simp [hc]

/-- Helper: no part produced by splitting contains the separator. -/
theorem mem_splitChar (sep : Char) :
    ∀ (l : List Char) (x : List Char), x ∈ splitChar sep l → sep ∉ x := by
  intro l
  induction l with
  | nil =>
    intro x hx
    simp only [splitChar, List.mem_singleton] at hx
    subst hx
    simp
  | cons c rest ih =>
    intro x hx
    rw [splitChar] at hx
    cases h : splitChar sep rest with
    | nil => exact absurd h (splitChar_ne_nil sep rest)
    | cons hd tl =>
      rw [h] at hx
      replace hx : x ∈ if c = sep then [] :: hd :: tl else (c :: hd) :: tl := hx
      by_cases hc : c = sep
      · rw [if_pos hc] at hx
        rcases List.mem_cons.mp hx with h1 | h1
        · subst h1; simp
        · exact ih x (h ▸ h1)
      · rw [if_neg hc] at hx
        rcases List.mem_cons.mp hx with h1 | h1
        · subst h1
          intro hmem
          rcases List.mem_cons.mp hmem with h2 | h2
          · exact hc h2.symm
          · exact ih hd (h ▸ List.mem_cons_self hd tl) h2
        · exact ih x (h ▸ List.mem_cons_of_mem hd h1)

/-- Helper: joining undoes splitting. -/
theorem joinChar_splitChar (sep : Char) : ∀ l, joinChar sep (splitChar sep l) = l := by
  intro l
  induction l with
  | nil => rfl
  | cons c rest ih =>
    rw [splitChar]
    cases h : splitChar sep rest with
    | nil => exact absurd h (splitChar_ne_nil sep rest)
    | cons hd tl =>
      show joinChar sep (if c = sep then [] :: hd :: tl else (c :: hd) :: tl) = c :: rest
      by_cases hc : c = sep
      · rw [if_pos hc]
        have hJ : joinChar sep ([] :: hd :: tl) = sep :: joinChar sep (hd :: tl) := rfl
        rw [hJ, ← h, ih, hc]
      · rw [if_neg hc]
        have hJ : joinChar sep ((c :: hd) :: tl) = c :: joinChar sep (hd :: tl) := by
          cases tl <;> rfl
        rw [hJ, ← h, ih]

/-- Helper: splitting a separator-free list yields that single part. -/
theorem splitChar_of_not_mem (sep : Char) :
    ∀ l, sep ∉ l → splitChar sep l = [l] := by
  intro l
  induction l with
  | nil => intro _; rfl
  | cons c rest ih =>
    intro h
    have hc : ¬ c = sep := fun e => h (e ▸ List.mem_cons_self c rest)
    have hrest : sep ∉ rest := fun e => h (List.mem_cons_of_mem c e)
    rw [splitChar, ih hrest]
    simp [hc]

/-- Helper: splitting distributes over a separator that follows a
separator-free prefix. -/
theorem splitChar_append (sep : Char) :
    ∀ (x rest : List Char), sep ∉ x →
      splitChar sep (x ++ sep :: rest) = x :: splitChar sep rest := by
  intro x
  induction x with
  | nil =>
    intro rest _
    show splitChar sep (sep :: rest) = [] :: splitChar sep rest
    rw [splitChar]
    cases h : splitChar sep rest with
    | nil => exact absurd h (splitChar_ne_nil sep rest)
    | cons hd tl => simp
  | cons c cs ih =>
    intro rest h
    have hc : ¬ c = sep := fun e => h (e ▸ List.mem_cons_self c _)
    have hcs : sep ∉ cs := fun e => h (List.mem_cons_of_mem c e)
    show splitChar sep (c :: (cs ++ sep :: rest)) = (c :: cs) :: splitChar sep rest
    rw [splitChar, ih rest hcs]
    simp [hc]

/-- Helper: splitting undoes joining for non-empty lists of separator-free
parts. -/
theorem splitChar_joinChar (sep : Char) :
    ∀ L : List (List Char), (∀ x ∈ L, sep ∉ x) → L ≠ [] →
      splitChar sep (joinChar sep L) = L := by
  intro L
  induction L with
  | nil => intro _ h; exact absurd rfl h
  | cons x xs ih =>
    intro hmem _
    cases xs with
    | nil =>
      show splitChar sep (joinChar sep [x]) = [x]
      rw [show joinChar sep [x] = x from rfl]
      exact splitChar_of_not_mem sep x (hmem x (by simp))
    | cons y ys =>
      have hJ : joinChar sep (x :: y :: ys) = x ++ sep :: joinChar sep (y :: ys) := rfl
      rw [hJ, splitChar_append sep x _ (hmem x (by simp)),
        ih (fun z hz => hmem z (List.mem_cons_of_mem _ hz)) (by simp)]

/-- Helper: the walk passes content through once both index lists are
exhausted. -/
theorem applyWalk_stop (removals additions : List (List Char)) (ri : Nat)
    (h1 : removals.length ≤ ri) (h2 : additions.length ≤ ri) :
    ∀ L, applyWalk removals additions L ri = L := by
  intro L
  induction L with
  | nil =>
    show additions.drop ri = []
    exact List.drop_eq_nil_of_le h2
  | cons l rest ih =>
    rw [applyWalk]
    have hr : removals[ri]? = none := List.getElem?_eq_none h1
    simp only [hr]
    rw [ih]

/-- Helper: every line produced by the walk comes from the content or from
the additions. -/
theorem mem_applyWalk (removals additions : List (List Char)) :
    ∀ (L : List (List Char)) (ri : Nat) (x : List Char),
      x ∈ applyWalk removals additions L ri → x ∈ L ∨ x ∈ additions := by
  intro L
  induction L with
  | nil =>
    intro ri x hx
    exact Or.inr (List.drop_subset ri additions hx)
  | cons l rest ih =>
    intro ri x hx
    rw [applyWalk] at hx
    cases hr : removals[ri]? with
    | none =>
      simp only [hr] at hx
      rcases List.mem_cons.mp hx with h | h
      · exact Or.inl (h ▸ List.mem_cons_self l rest)
      · rcases ih ri x h with h2 | h2
        · exact Or.inl (List.mem_cons_of_mem l h2)
        · exact Or.inr h2
    | some r =>
      simp only [hr] at hx
      by_cases hl : l = r
      · rw [if_pos hl] at hx
        cases ha : additions[ri]? with
        | some a =>
          rw [ha] at hx
          rcases List.mem_cons.mp hx with h | h
          · exact Or.inr (h ▸ List.getElem?_mem ha)
          · rcases ih (ri + 1) x h with h2 | h2
            · exact Or.inl (List.mem_cons_of_mem l h2)
            · exact Or.inr h2
        | none =>
          rw [ha] at hx
          rcases ih (ri + 1) x hx with h2 | h2
          · exact Or.inl (List.mem_cons_of_mem l h2)
          · exact Or.inr h2
      · rw [if_neg hl] at hx
        rcases List.mem_cons.mp hx with h | h
        · exact Or.inl (h ▸ List.mem_cons_self l rest)
        · rcases ih ri x h with h2 | h2
          · exact Or.inl (List.mem_cons_of_mem l h2)
          · exact Or.inr h2

/-- Helper: the single-replacement walk never empties the content. -/
theorem applyWalk_single_ne_nil (r s : List Char) :
    ∀ L, applyWalk [r] [s] L 0 ≠ [] := by
  intro L
  cases L with
  | nil => simp [applyWalk]
  | cons l rest =>
    rw [applyWalk]
    simp only [show ([r] : List (List Char))[0]? = some r from rfl]
    by_cases hl : l = r
    · rw [if_pos hl]
      simp only [show ([s] : List (List Char))[0]? = some s from rfl]
      simp
    · rw [if_neg hl]
      simp

/-- Helper: one walk step when the head line equals the pending removal. -/
theorem applyWalk_cons_hit (removals additions : List (List Char)) (l : List Char)
    (L : List (List Char)) (ri : Nat) (r : List Char)
    (hr : removals[ri]? = some r) (hl : l = r) :
    applyWalk removals additions (l :: L) ri =
      (match additions[ri]? with
       | some a => a :: applyWalk removals additions L (ri + 1)
       | none => applyWalk removals additions L (ri + 1)) := by
  rw [applyWalk]
  simp only [hr]
  rw [if_pos hl]

/-- Helper: one walk step when the head line differs from the pending
removal. -/
theorem applyWalk_cons_skip (removals additions : List (List Char)) (l : List Char)
    (L : List (List Char)) (ri : Nat) (r : List Char)
    (hr : removals[ri]? = some r) (hl : ¬ l = r) :
    applyWalk removals additions (l :: L) ri =
      l :: applyWalk removals additions L ri := by
  rw [applyWalk]
  simp only [hr]
  rw [if_neg hl]

/-- Helper: replacing the first occurrence of `r` by `s` and then the first
occurrence of `s` by `r` restores the original lines, provided `r`
occurs and `s` does not. -/
theorem walk_roundtrip (r s : List Char) :
    ∀ L, r ∈ L → s ∉ L →
      applyWalk [s] [r] (applyWalk [r] [s] L 0) 0 = L := by
  intro L
  induction L with
  | nil => intro hr _; cases hr
  | cons l rest ih =>
    intro hr hs
    have hsl : s ≠ l := fun e => hs (e ▸ List.mem_cons_self l rest)
    have hsrest : s ∉ rest := fun e => hs (List.mem_cons_of_mem l e)
    by_cases hl : l = r
    · subst hl
      have h1 : applyWalk [l] [s] (l :: rest) 0 = s :: rest := by
        rw [applyWalk_cons_hit [l] [s] l rest 0 l rfl rfl]
        simp only [show ([s] : List (List Char))[0]? = some s from rfl]
        rw [applyWalk_stop [l] [s] 1 (by simp) (by simp) rest]
      rw [h1]
      rw [applyWalk_cons_hit [s] [l] s rest 0 s rfl rfl]
      simp only [show ([l] : List (List Char))[0]? = some l from rfl]
      rw [applyWalk_stop [s] [l] 1 (by simp) (by simp) rest]
    · have hr2 : r ∈ rest := by
        rcases List.mem_cons.mp hr with h | h
        · exact absurd h.symm hl
        · exact h
      rw [applyWalk_cons_skip [r] [s] l rest 0 r rfl hl]
      rw [applyWalk_cons_skip [s] [r] l _ 0 s rfl (fun e => hsl e.symm)]
      rw [ih hr2 hsrest]

/-- Helper: classification of a removal line with a benign tail. -/
theorem diffRemoval_dash (r : List Char) (h : ['-', '-'].isPrefixOf r = false) :
    diffRemoval ('-' :: r) = some r := by
  simp [diffRemoval, h]

/-- Helper: a `+` line is never a removal. -/
theorem diffRemoval_plus (s : List Char) : diffRemoval ('+' :: s) = none := by
  simp [diffRemoval]

/-- Helper: classification of an addition line with a benign tail. -/
theorem diffAddition_plus (s : List Char) (h : ['+', '+'].isPrefixOf s = false) :
    diffAddition ('+' :: s) = some s := by
  simp [diffAddition, h]

/-- Helper: a `-` line is never an addition. -/
theorem diffAddition_dash (r : List Char) : diffAddition ('-' :: r) = none := by
  simp [diffAddition]

/-- C5 (counterexample): the round-trip property fails for
`apply_diff_to_content`.  Applying the pure-addition diff `+x` to the
content `x\na` appends the line at the end, giving `x\na\nx`; applying
the inverse diff `-x` to that removes the FIRST occurrence of `x`,
giving `a\nx`, not the original content. -/
theorem apply_diff_roundtrip_counterexample :
    apply_diff_to_content "x\na" ["+x"] = "x\na\nx" ∧
    invertDiff ["+x"] = ["-x"] ∧
    apply_diff_to_content (apply_diff_to_content "x\na" ["+x"]) (invertDiff ["+x"]) =
      "a\nx" ∧
    ("a\nx" : String) ≠ "x\na" := by
  decide

/-- C5 (amended): the round trip holds for single-replacement diffs — one
removed line `r` that occurs in the content and one added line `s` that
does not (both free of newline trouble: `r` is a content line, `s`
contains no newline, and neither starts with a doubled diff marker).
Applying the inverse diff (markers swapped) to the patched content
restores the original content. -/
theorem apply_diff_roundtrip (C : String) (r s : List Char)
    (hr : r ∈ splitChar '\n' C.data)
    (hs : s ∉ splitChar '\n' C.data)
    (hnl : '\n' ∉ s)
    (hr1 : ['-', '-'].isPrefixOf r = false) (hr2 : ['+', '+'].isPrefixOf r = false)
    (hs1 : ['-', '-'].isPrefixOf s = false) (hs2 : ['+', '+'].isPrefixOf s = false) :
    apply_diff_to_content
      (apply_diff_to_content C [⟨'-' :: r⟩, ⟨'+' :: s⟩])
      (invertDiff [⟨'-' :: r⟩, ⟨'+' :: s⟩]) = C := by
  obtain ⟨cd⟩ := C
  have hrem : [(⟨'-' :: r⟩ : String), ⟨'+' :: s⟩].filterMap (fun h => diffRemoval h.data) =
      [r] := by
    simp [List.filterMap, diffRemoval_dash r hr1, diffRemoval_plus s]
  have hadd : [(⟨'-' :: r⟩ : String), ⟨'+' :: s⟩].filterMap (fun h => diffAddition h.data) =
      [s] := by
    simp [List.filterMap, diffAddition_dash r, diffAddition_plus s hs2]
  have hinv : invertDiff [⟨'-' :: r⟩, ⟨'+' :: s⟩] =
      [(⟨'+' :: r⟩ : String), ⟨'-' :: s⟩] := by
    simp [invertDiff, invertDiffLine, diffRemoval_dash r hr1, diffRemoval_plus s,
      diffAddition_plus s hs2]
  have hrem2 : [(⟨'+' :: r⟩ : String), ⟨'-' :: s⟩].filterMap (fun h => diffRemoval h.data) =
      [s] := by
    simp [List.filterMap, diffRemoval_plus r, diffRemoval_dash s hs1]
  have hadd2 : [(⟨'+' :: r⟩ : String), ⟨'-' :: s⟩].filterMap (fun h => diffAddition h.data) =
      [r] := by
    simp [List.filterMap, diffAddition_plus r hr2, diffAddition_dash s]
  show apply_diff_to_content (apply_diff_to_content ⟨cd⟩ _) _ = _
  unfold apply_diff_to_content
  simp only [hrem, hadd, hinv, hrem2, hadd2]
  have hW : ∀ x ∈ applyWalk [r] [s] (splitChar '\n' cd) 0, '\n' ∉ x := by
    intro x hx
    rcases mem_applyWalk [r] [s] (splitChar '\n' cd) 0 x hx with h | h
    · exact mem_splitChar '\n' cd x h
    · rw [List.mem_singleton] at h
      exact h ▸ hnl
  rw [splitChar_joinChar '\n' _ hW (applyWalk_single_ne_nil r s _)]
  rw [walk_roundtrip r s _ hr hs]
  rw [joinChar_splitChar]

/-- C5 (witness): the amended round trip evaluated on concrete content. -/
theorem apply_diff_roundtrip_witness :
    ['b'] ∈ splitChar '\n' ("a\nb" : String).data ∧
    apply_diff_to_content (apply_diff_to_content "a\nb" ["-b", "+x"])
      (invertDiff ["-b", "+x"]) = "a\nb" := by
  refine ⟨by decide, ?_⟩
  have h := apply_diff_roundtrip "a\nb" ['b'] ['x'] (by decide) (by decide)
    (by decide) (by decide) (by decide) (by decide) (by decide)
  exact h

/-- Helper: sequential hunk application splits over list append. -/
theorem applyHunksSeq_append (pre rest : List DiffHunk) :
    ∀ c, applyHunksSeq c (pre ++ rest) =
      match applyHunksSeq c pre with
      | .ok c2 => applyHunksSeq c2 rest
      | .error h => .error h := by
  induction pre with
  | nil => intro c; rfl
  | cons p ps ih =>
    intro c
    show applyHunksSeq c (p :: (ps ++ rest)) = _
    simp only [applyHunksSeq]
    cases hp : applyHunkTo c p with
    | some c2 => simp only [hp]; exact ih c2
    | none => simp only [hp]

/-- Helper: a failed sequential application pinpoints the failing hunk: the
hunks before it applied, and it could not be located in the content they
produced. -/
theorem applyHunksSeq_error_mem (hs : List DiffHunk) :
    ∀ (c : List String) (h : DiffHunk), applyHunksSeq c hs = .error h →
      ∃ pre post c2, hs = pre ++ h :: post ∧ applyHunksSeq c pre = .ok c2 ∧
        applyHunkTo c2 h = none := by
  induction hs with
  | nil => intro c h he; cases he
  | cons h0 rest ih =>
    intro c h he
    rw [applyHunksSeq] at he
    cases hp : applyHunkTo c h0 with
    | some c1 =>
      simp only [hp] at he
      obtain ⟨pre, post, c2, h1, h2, h3⟩ := ih c1 h he
      refine ⟨h0 :: pre, post, c2, by rw [h1]; rfl, ?_, h3⟩
      simp only [applyHunksSeq, hp]
      exact h2
    | none =>
      simp only [hp] at he
      obtain rfl : h0 = h := Except.error.inj he
      exact ⟨[], rest, c, rfl, rfl, hp⟩

/-- Helper: a file whose hunks fail makes the whole submission fail. -/
theorem applyFiles_error_of_fail (tree : String → List String)
    (hunks : List DiffHunk) :
    ∀ (fs : List String) (f : String), f ∈ fs →
      (∃ h, applyHunksSeq (tree f) (hunksFor hunks f) = .error h) →
      ∃ e, applyFiles tree hunks fs = .error e := by
  intro fs
  induction fs with
  | nil => intro f hf; cases hf
  | cons f0 rest ih =>
    intro f hf hfail
    rw [applyFiles]
    cases hseq : applyHunksSeq (tree f0) (hunksFor hunks f0) with
    | error h => exact ⟨(f0, h), by simp only [hseq]⟩
    | ok c2 =>
      simp only [hseq]
      rcases List.mem_cons.mp hf with hh | hh
      · subst hh
        obtain ⟨h, hherr⟩ := hfail
        rw [hherr] at hseq
        cases hseq
      · obtain ⟨e, he⟩ := ih f hh hfail
        exact ⟨e, by simp only [he]⟩

/-- Helper: a failed submission names a file of the list whose hunks
failed. -/
theorem applyFiles_error_sound (tree : String → List String)
    (hunks : List DiffHunk) :
    ∀ (fs : List String) (f : String) (h : DiffHunk),
      applyFiles tree hunks fs = .error (f, h) →
      f ∈ fs ∧ applyHunksSeq (tree f) (hunksFor hunks f) = .error h := by
  intro fs
  induction fs with
  | nil => intro f h he; cases he
  | cons f0 rest ih =>
    intro f h he
    rw [applyFiles] at he
    cases hseq : applyHunksSeq (tree f0) (hunksFor hunks f0) with
    | error h0 =>
      simp only [hseq] at he
      have hpair := Except.error.inj he
      cases hpair
      exact ⟨List.mem_cons_self f0 rest, hseq⟩
    | ok c2 =>
      simp only [hseq] at he
      cases hrec : applyFiles tree hunks rest with
      | error e =>
        simp only [hrec] at he
        obtain rfl : e = (f, h) := Except.error.inj he
        obtain ⟨hmem, hs⟩ := ih f h hrec
        exact ⟨List.mem_cons_of_mem f0 hmem, hs⟩
      | ok r2 =>
        simp only [hrec] at he
        cases he

/-- Helper: a hunk of a file group belongs to the diff and names the file. -/
theorem hunksFor_mem (hunks : List DiffHunk) (f : String) (h : DiffHunk)
    (hm : h ∈ hunksFor hunks f) : h ∈ hunks ∧ h.filePath = f := by
  unfold hunksFor at hm
  have := List.mem_filter.mp hm
  exact ⟨this.1, by simpa using this.2⟩

/-- C2: when any hunk of a submission cannot be located — neither exactly
nor whitespace-normalized — in the content that the hunks before it
produced, the Applier rejects the whole submission: the result is an
error naming a hunk that failed in exactly this way, no per-file
contents are returned, and the commit step leaves every file of the
tree unchanged. -/
theorem applier_rejects_unmatched (tree : String → List String)
    (hunks : List DiffHunk) (f : String) (hf : f ∈ filesOf hunks)
    (pre : List DiffHunk) (h : DiffHunk) (post : List DiffHunk) (c2 : List String)
    (hdecomp : hunksFor hunks f = pre ++ h :: post)
    (hpre : applyHunksSeq (tree f) pre = .ok c2)
    (hmiss : applyHunkTo c2 h = none) :
    ∃ f2 h2, apply_edits tree hunks = .error (f2, h2) ∧
      h2 ∈ hunks ∧ h2.filePath = f2 ∧
      (∃ pre2 post2 c3, hunksFor hunks f2 = pre2 ++ h2 :: post2 ∧
        applyHunksSeq (tree f2) pre2 = .ok c3 ∧ applyHunkTo c3 h2 = none) ∧
      commitApply tree (apply_edits tree hunks) = tree := by
  have hfFail : applyHunksSeq (tree f) (hunksFor hunks f) = .error h := by
    rw [hdecomp, applyHunksSeq_append]
    rw [hpre]
    simp only [applyHunksSeq, hmiss]
  obtain ⟨e, he⟩ :=
    applyFiles_error_of_fail tree hunks (filesOf hunks) f hf ⟨h, hfFail⟩
  obtain ⟨f2, h2⟩ := e
  have hsound := applyFiles_error_sound tree hunks (filesOf hunks) f2 h2 he
  obtain ⟨pre2, post2, c3, hdec2, hpre2, hmiss2⟩ :=
    applyHunksSeq_error_mem (hunksFor hunks f2) (tree f2) h2 hsound.2
  have hmem2 : h2 ∈ hunksFor hunks f2 := by
    rw [hdec2]
    exact List.mem_append_right pre2 (List.mem_cons_self h2 post2)
  have hof := hunksFor_mem hunks f2 h2 hmem2
  have heq : apply_edits tree hunks = .error (f2, h2) := he
  refine ⟨f2, h2, heq, hof.1, hof.2, ⟨pre2, post2, c3, hdec2, hpre2, hmiss2⟩, ?_⟩
  rw [heq]
  rfl

/-- C2 (witness): a two-file submission whose second file's hunk is
unmatched is rejected as a whole and the commit leaves the tree alone. -/
theorem applier_rejects_unmatched_witness :
    ∃ f2 h2, apply_edits wTree [wHunkA, wHunkB] = .error (f2, h2) ∧
      h2 ∈ [wHunkA, wHunkB] ∧ h2.filePath = f2 ∧
      (∃ pre2 post2 c3, hunksFor [wHunkA, wHunkB] f2 = pre2 ++ h2 :: post2 ∧
        applyHunksSeq (wTree f2) pre2 = .ok c3 ∧ applyHunkTo c3 h2 = none) ∧
      commitApply wTree (apply_edits wTree [wHunkA, wHunkB]) = wTree :=
  applier_rejects_unmatched wTree [wHunkA, wHunkB] "B.java" (by decide)
    [] wHunkB [] (wTree "B.java") (by decide) rfl (by decide)

end Aura
